import Mathlib

/-!
Verification of the DeepLX-App large-text translation pipeline.

The JavaScript sources are shallowly embedded: strings are `List Char`,
stateful loops become explicit recursion (with a fuel argument where the
JS loop's termination is not structural), network calls become oracle
parameters describing each attempt's outcome, and code that can throw
returns `Except`.
-/

/-- JavaScript strings are modelled as lists of characters. -/
abbrev Str := List Char

/-- The apostrophe character, used when building header strings. -/
def apos : Char := Char.ofNat 39

/-- Decidable test that `sub` occurs at the front of `s`. -/
def begWith : Str → Str → Bool
  | [], _ => true
  | _ :: _, [] => false
  | c :: cs, d :: ds => c = d && begWith cs ds

/-- Search downward from position `i` for the rightmost occurrence of `sub`. -/
def lastIndexFrom (s sub : Str) : Nat → Option Nat
  | 0 => if begWith sub s then some 0 else none
  | i + 1 => if begWith sub (s.drop (i + 1)) then some (i + 1) else lastIndexFrom s sub i

/-- JavaScript `s.lastIndexOf(sub)`: the greatest index at which `sub` occurs
in `s` (`none` for the JS result `-1`). -/
def jsLastIndexOf (s sub : Str) : Option Nat :=
  lastIndexFrom s sub s.length

/-- JavaScript `s.includes(sub)`. -/
def jsIncludes (s sub : Str) : Bool :=
  (jsLastIndexOf s sub).isSome

/-- Characters removed by JavaScript `String.prototype.trim` (the common
WhiteSpace and LineTerminator code points). -/
def isJsSpace (c : Char) : Bool :=
  c = ' ' || c = '\t' || c = '\n' || c = '\r' ||
  c = Char.ofNat 11 || c = Char.ofNat 12 || c = Char.ofNat 160 || c = Char.ofNat 0xFEFF

/-- JavaScript `s.trim()`. -/
def jsTrim (s : Str) : Str :=
  ((s.dropWhile isJsSpace).reverse.dropWhile isJsSpace).reverse

/-- JavaScript `s.substring(a, b)`: both indices are clamped to the string
length and swapped when out of order. -/
def jsSubstring (s : Str) (a b : Nat) : Str :=
  let a' := min a s.length
  let b' := min b s.length
  if a' ≤ b' then (s.drop a').take (b' - a') else (s.drop b').take (a' - b')

/-- Decimal rendering of a natural number, as a character list. -/
def natToStr (n : Nat) : Str :=
  (Nat.repr n).toList

/-! ## Chunker (`splitTextIntoChunks`, src/script.js lines 119-157) -/

/-- Constant `CONFIG.CHUNK_SIZE` from src/script.js. -/
def CHUNK_SIZE : Nat := 500

/-- Constant `CONFIG.PARALLEL_CHUNKS` from src/script.js. -/
def PARALLEL_CHUNKS : Nat := 3

/-- The priority-ordered separator list of `splitTextIntoChunks`. -/
def separators : List Str :=
  [['\n', '\n'], ['.', ' '], ['.', '\n'], ['!', ' '], ['!', '\n'],
   ['?', ' '], ['?', '\n'], ['\n'], [' ']]

/-- The separator scan of `splitTextIntoChunks`: for the first separator in
priority order that occurs in `searchText`, return
`sepIndex + separator.length` (the cut offset inside `searchText`). -/
def findSepFrom : List Str → Str → Option Nat
  | [], _ => none
  | sep :: rest, searchText =>
    match jsLastIndexOf searchText sep with
    | some j => some (j + sep.length)
    | none => findSepFrom rest searchText

/-- The `endIndex` computed by one iteration of the `splitTextIntoChunks`
loop, starting from `currentIndex`. -/
def chunkEnd (text : Str) (chunkSize currentIndex : Nat) : Nat :=
  let endIndex0 := currentIndex + chunkSize
  if endIndex0 < text.length then
    let searchStart := max currentIndex (endIndex0 - 50)
    let searchText := jsSubstring text searchStart (endIndex0 + 50)
    match findSepFrom separators searchText with
    | some off =>
      let bestSeparatorIndex := searchStart + off
      if currentIndex < bestSeparatorIndex then bestSeparatorIndex else endIndex0
    | none => endIndex0
  else endIndex0

/-- The `while (currentIndex < text.length)` loop of `splitTextIntoChunks`,
pushing the trimmed piece of each window.  `fuel` bounds the number of
iterations; `text.length` is enough fuel whenever `1 ≤ chunkSize`, which
is the regime in which the JS loop terminates at all. -/
def splitChunksLoop (text : Str) (chunkSize : Nat) : Nat → Nat → List Str
  | 0, _ => []
  | fuel + 1, currentIndex =>
    if currentIndex < text.length then
      let endIndex := chunkEnd text chunkSize currentIndex
      jsTrim (jsSubstring text currentIndex endIndex) ::
        splitChunksLoop text chunkSize fuel endIndex
    else []

/-- Function `splitTextIntoChunks(text, chunkSize)` from src/script.js: texts within
the limit stay whole, larger texts are cut at separator boundaries, each
piece is trimmed, and empty pieces are dropped. -/
def splitTextIntoChunks (text : Str) (chunkSize : Nat) : List Str :=
  if text.length ≤ chunkSize then [text]
  else (splitChunksLoop text chunkSize text.length 0).filter (fun c => 0 < c.length)

/-- Proof companion of `splitChunksLoop` that records the raw (untrimmed)
window contents; used to state chunk reconstruction. -/
def splitSegsLoop (text : Str) (chunkSize : Nat) : Nat → Nat → List Str
  | 0, _ => []
  | fuel + 1, currentIndex =>
    if currentIndex < text.length then
      let endIndex := chunkEnd text chunkSize currentIndex
      jsSubstring text currentIndex endIndex ::
        splitSegsLoop text chunkSize fuel endIndex
    else []

/-- Concatenation of a list of strings (the reconstruction join). -/
def catList (l : List Str) : Str := l.foldr (· ++ ·) []

/-! ## Chunker lemmas -/

theorem begWith_length {sub t : Str} (h : begWith sub t = true) : sub.length ≤ t.length := by
  induction sub generalizing t with
  | nil => simp
  | cons c cs ih =>
    cases t with
    | nil => simp [begWith] at h
    | cons d ds =>
      simp only [begWith, Bool.and_eq_true] at h
      simpa using ih h.2

theorem lastIndexFrom_spec {s sub : Str} {i j : Nat} (h : lastIndexFrom s sub i = some j) :
    j ≤ i ∧ begWith sub (s.drop j) = true := by
  induction i with
  | zero =>
    simp only [lastIndexFrom] at h
    split at h
    next hb => cases h; exact ⟨Nat.le_refl 0, by simpa using hb⟩
    next => cases h
  | succ i ih =>
    simp only [lastIndexFrom] at h
    split at h
    next hb => cases h; exact ⟨Nat.le_refl _, hb⟩
    next =>
      obtain ⟨h1, h2⟩ := ih h
      exact ⟨Nat.le_succ_of_le h1, h2⟩

theorem jsLastIndexOf_add_le {s sub : Str} {j : Nat} (h : jsLastIndexOf s sub = some j) :
    j + sub.length ≤ s.length := by
  obtain ⟨hj, hb⟩ := lastIndexFrom_spec h
  have hlen := begWith_length hb
  rw [List.length_drop] at hlen
  omega

theorem findSepFrom_le {seps : List Str} {st : Str} {off : Nat}
    (h : findSepFrom seps st = some off) : off ≤ st.length := by
  induction seps with
  | nil => simp [findSepFrom] at h
  | cons sep rest ih =>
    simp only [findSepFrom] at h
    split at h
    next j hj => cases h; exact jsLastIndexOf_add_le hj
    next => exact ih h

theorem jsSubstring_length_le {s : Str} {a b : Nat} (hab : a ≤ b) :
    (jsSubstring s a b).length ≤ b - a := by
  unfold jsSubstring
  have h1 : min a s.length ≤ min b s.length := by omega
  simp only [h1, if_pos, List.length_take, List.length_drop]
  omega

theorem jsSubstring_eq_of_le {s : Str} {a b : Nat} (hab : a ≤ b) :
    jsSubstring s a b = (s.drop a).take (b - a) := by
  unfold jsSubstring
  have h1 : min a s.length ≤ min b s.length := by omega
  rw [if_pos h1]
  rcases le_or_lt a s.length with ha | ha
  · have ha' : min a s.length = a := by omega
    rw [ha']
    rw [List.take_eq_take]
    simp only [List.length_drop]
    omega
  · have ha' : min a s.length = s.length := by omega
    have hb' : min b s.length = s.length := by omega
    rw [ha', hb']
    rw [List.drop_length, List.drop_eq_nil_of_le (by omega)]
    simp

theorem jsSubstring_append_drop {s : Str} {a b : Nat} (hab : a ≤ b) :
    jsSubstring s a b ++ s.drop b = s.drop a := by
  rw [jsSubstring_eq_of_le hab]
  have h : s.drop b = (s.drop a).drop (b - a) := by
    rw [List.drop_drop]
    congr 1
    omega
  rw [h, List.take_append_drop]

theorem jsTrim_length_le (s : Str) : (jsTrim s).length ≤ s.length := by
  unfold jsTrim
  have h1 : (s.dropWhile isJsSpace).length ≤ s.length :=
    (List.dropWhile_sublist _).length_le
  have h2 : ((s.dropWhile isJsSpace).reverse.dropWhile isJsSpace).length ≤
      (s.dropWhile isJsSpace).reverse.length :=
    (List.dropWhile_sublist _).length_le
  simp only [List.length_reverse] at h2 ⊢
  omega

theorem le_chunkEnd {text : Str} {cs c : Nat} : c ≤ chunkEnd text cs c := by
  simp only [chunkEnd]
  split
  · split
    next off heq =>
      split
      next h => omega
      next => omega
    next => omega
  · omega

theorem lt_chunkEnd {text : Str} {cs c : Nat} (hcs : 1 ≤ cs) : c < chunkEnd text cs c := by
  simp only [chunkEnd]
  split
  · split
    next off heq =>
      split
      next h => omega
      next => omega
    next => omega
  · omega

theorem chunkEnd_le {text : Str} {cs c : Nat} : chunkEnd text cs c ≤ c + cs + 50 := by
  simp only [chunkEnd]
  split
  next hlen =>
    split
    next off heq =>
      have hoff := findSepFrom_le heq
      have hst := jsSubstring_length_le
        (s := text) (a := max c (c + cs - 50)) (b := c + cs + 50) (by omega)
      split
      next => omega
      next => omega
    next => omega
  next => omega

theorem splitChunksLoop_length_bound {text : Str} {cs : Nat} :
    ∀ fuel c, ∀ ch ∈ splitChunksLoop text cs fuel c, ch.length ≤ cs + 50 := by
  intro fuel
  induction fuel with
  | zero => intro c ch hch; simp [splitChunksLoop] at hch
  | succ fuel ih =>
    intro c ch hch
    simp only [splitChunksLoop] at hch
    split at hch
    next hc =>
      simp only [List.mem_cons] at hch
      rcases hch with h | h
      · subst h
        have h1 := jsSubstring_length_le (s := text) (a := c) (b := chunkEnd text cs c)
          le_chunkEnd
        have h2 := jsTrim_length_le (jsSubstring text c (chunkEnd text cs c))
        have h3 := @chunkEnd_le text cs c
        omega
      · exact ih _ ch h
    next => simp at hch

theorem splitTextIntoChunks_bound (text : Str) (cs : Nat) :
    ∀ ch ∈ splitTextIntoChunks text cs, ch.length ≤ cs + 50 := by
  intro ch hch
  unfold splitTextIntoChunks at hch
  split at hch
  next h =>
    simp only [List.mem_singleton] at hch
    subst hch
    omega
  next h => exact splitChunksLoop_length_bound _ _ ch (List.mem_filter.mp hch).1

theorem splitChunksLoop_eq_map {text : Str} {cs : Nat} :
    ∀ fuel c, splitChunksLoop text cs fuel c = (splitSegsLoop text cs fuel c).map jsTrim := by
  intro fuel
  induction fuel with
  | zero => intro c; simp [splitChunksLoop, splitSegsLoop]
  | succ fuel ih =>
    intro c
    simp only [splitChunksLoop, splitSegsLoop]
    split
    · simp [ih]
    · simp

theorem splitSegsLoop_join {text : Str} {cs : Nat} (hcs : 1 ≤ cs) :
    ∀ fuel c, text.length - c ≤ fuel →
      catList (splitSegsLoop text cs fuel c) = text.drop c := by
  intro fuel
  induction fuel with
  | zero =>
    intro c h
    simp only [splitSegsLoop, catList, List.foldr_nil]
    rw [eq_comm]
    exact List.drop_eq_nil_of_le (by omega)
  | succ fuel ih =>
    intro c h
    simp only [splitSegsLoop]
    split
    next hc =>
      have hlt := @lt_chunkEnd text cs c hcs
      have hrec := ih (chunkEnd text cs c) (by omega)
      simp only [catList, List.foldr_cons] at hrec ⊢
      rw [hrec]
      exact jsSubstring_append_drop le_chunkEnd
    next hc =>
      simp only [catList, List.foldr_nil]
      rw [eq_comm]
      exact List.drop_eq_nil_of_le (by omega)

/-! ## Translate endpoint length check (src/unnamed/part_002 lines 60-66) -/

/-- Constant `CONFIG.MAX_TEXT_LENGTH` of the serverless translate handler. -/
def MAX_TEXT_LENGTH : Nat := 5000

/-- The handler's `Text too long` rejection test:
`text.length > CONFIG.MAX_TEXT_LENGTH`. -/
def handlerTextTooLong (text : Str) : Bool :=
  decide (MAX_TEXT_LENGTH < text.length)

/-! ## Claims C3, C4, C10 -/

/-- A text on which the chunker, asked for limit 4, produces an over-limit
chunk that is not an atomic separator-free unit: the highest-priority
separator (a paragraph break) sits far inside the 50-character lookaround,
so the cut lands there and the first chunk keeps all its spaces. -/
def c3Text : Str :=
  "a b c d e f g h i j k l m m\n\ntail here".toList

/-- C3 counterexample: it is not true that every chunk of
`splitTextIntoChunks` respects the limit except atomic separator-free
overflows.  On `c3Text` with limit 4, the first chunk is 27 characters
long and contains many spaces (so it is not a single atomic unit with no
separator), yet far exceeds the limit. -/
theorem c3_claim_counterexample :
    ¬ (∀ ch ∈ splitTextIntoChunks c3Text 4,
        ch.length ≤ 4 ∨ ∀ sep ∈ separators, jsLastIndexOf ch sep = none) := by
  decide

/-- C3 (amended): every chunk returned by `splitTextIntoChunks(text, limit)`
(for `limit ≥ 1`) has size at most `limit + 50`: the separator search may
move a cut up to 50 characters past the window boundary, and over-limit
chunks arise exactly from that lookahead, not only from atomic units —
an atomic separator-free run is cut exactly at the window boundary, never
kept whole. -/
theorem c3_amended_chunk_bound (text : Str) (limit : Nat) (hlimit : 1 ≤ limit) :
    ∀ ch ∈ splitTextIntoChunks text limit, ch.length ≤ limit + 50 :=
  splitTextIntoChunks_bound text limit

/-- Witness for `c3_amended_chunk_bound` at a concrete input. -/
theorem c3_amended_chunk_bound_witness :
    1 ≤ 4 ∧ ∀ ch ∈ splitTextIntoChunks c3Text 4, ch.length ≤ 4 + 50 :=
  ⟨by decide, c3_amended_chunk_bound c3Text 4 (by decide)⟩

/-- C4: the chunks of `splitTextIntoChunks(text, limit)` reproduce the
original text up to whitespace trimming.  Either the text fits in one
chunk and is returned verbatim, or there is a partition of the text into
consecutive raw segments (cut exactly where the chunker cut) whose
concatenation is the original text, and the returned chunks are exactly
those segments trimmed of leading/trailing whitespace with empty pieces
dropped — so no character beyond the trimmed whitespace is lost and none
is duplicated or reordered. -/
theorem c4_reconstruction (text : Str) (limit : Nat) (hlimit : 1 ≤ limit) :
    splitTextIntoChunks text limit = [text] ∨
    ∃ segs : List Str, catList segs = text ∧
      splitTextIntoChunks text limit =
        (segs.map jsTrim).filter (fun c => 0 < c.length) := by
  unfold splitTextIntoChunks
  split
  · left
    rfl
  · right
    refine ⟨splitSegsLoop text limit text.length 0, ?_, ?_⟩
    · have h := @splitSegsLoop_join text limit hlimit text.length 0 (by omega)
      simpa using h
    · rw [splitChunksLoop_eq_map]

/-- Witness for `c4_reconstruction` at a concrete input. -/
theorem c4_reconstruction_witness :
    splitTextIntoChunks c3Text 4 = [c3Text] ∨
    ∃ segs : List Str, catList segs = c3Text ∧
      splitTextIntoChunks c3Text 4 =
        (segs.map jsTrim).filter (fun c => 0 < c.length) :=
  c4_reconstruction c3Text 4 (by decide)

/-- C10: for every chunk size `≥ 1` each chunk is at most `chunkSize + 50`
characters, and with the default `CHUNK_SIZE = 500` every chunk the client
submits is at most 550 characters, so the translate endpoint's
`Text too long` rejection (texts over `MAX_TEXT_LENGTH = 5000`) is
unreachable for chunked requests. -/
theorem c10_chunk_bound_endpoint (text : Str) (chunkSize : Nat) (h : 1 ≤ chunkSize) :
    (∀ ch ∈ splitTextIntoChunks text chunkSize, ch.length ≤ chunkSize + 50) ∧
    (∀ ch ∈ splitTextIntoChunks text CHUNK_SIZE,
      ch.length ≤ 550 ∧ handlerTextTooLong ch = false) := by
  refine ⟨splitTextIntoChunks_bound text chunkSize, fun ch hch => ?_⟩
  have hb := splitTextIntoChunks_bound text CHUNK_SIZE ch hch
  rw [CHUNK_SIZE] at hb
  refine ⟨by omega, ?_⟩
  simp only [handlerTextTooLong, MAX_TEXT_LENGTH, decide_eq_false_iff_not]
  omega

/-- Witness for `c10_chunk_bound_endpoint` at a concrete input. -/
theorem c10_chunk_bound_endpoint_witness :
    1 ≤ 4 ∧
    ((∀ ch ∈ splitTextIntoChunks c3Text 4, ch.length ≤ 4 + 50) ∧
     (∀ ch ∈ splitTextIntoChunks c3Text CHUNK_SIZE,
       ch.length ≤ 550 ∧ handlerTextTooLong ch = false)) :=
  ⟨by decide, c10_chunk_bound_endpoint c3Text 4 (by decide)⟩

/-! ## Retrying unit translators (src/unnamed/part_000 lines 517-610,
src/script.js lines 170-225) -/

/-- One translation-client attempt as seen by the retry loops: either the
fetch (or body parsing) throws with a message, or a response arrives with
an HTTP status, status text, parsed `code`/`data`/resolved error message,
and raw body text. -/
inductive Attempt where
  | netThrow (msg : Str)
  | resp (status : Nat) (statusText : Str) (code : Nat) (data : Str)
      (message : Str) (bodyText : Str)

/-- JavaScript `response.ok`: status in the 2xx range. -/
def respOk (status : Nat) : Bool :=
  decide (200 ≤ status) && decide (status < 300)

/-- Function `shouldRetry` from src/unnamed/part_000: retryable HTTP status codes. -/
def shouldRetry (statusCode : Nat) : Bool :=
  [408, 429, 500, 502, 503, 504, 520, 521, 522, 523, 524].contains statusCode

/-- Function `shouldRetryError` from src/unnamed/part_000: retry when the error
message mentions a retryable network error code, a timeout, or the
network. -/
def shouldRetryError (msg : Str) : Bool :=
  ["ECONNRESET".toList, "ETIMEDOUT".toList, "ENOTFOUND".toList,
   "EAI_AGAIN".toList, "ECONNREFUSED".toList].any (fun code => jsIncludes msg code) ||
  jsIncludes msg "timeout".toList || jsIncludes msg "network".toList

/-- The `HTTP ${status}: ${statusText}` message built on a non-ok response. -/
def httpErrMsg (status : Nat) (statusText : Str) : Str :=
  "HTTP ".toList ++ natToStr status ++ ": ".toList ++ statusText
/-- The language-specific fallback table of `generateDemoTranslatedContent`
(src/unnamed/part_000 lines 268-313). -/
def demoTexts : List (Str × Str) := [
  ("BG".toList, "Това е пример за преведен текст за демонстриране на функционалността на системата за превод на документи. В реално приложение тук ще бъде пълното преведено съдържание на документа.".toList),
  ("CS".toList, "Toto je příklad přeloženého textu pro demonstraci funkčnosti systému překladu dokumentů. V reálné aplikaci by zde byl úplný přeložený obsah dokumentu.".toList),
  ("PL".toList, "To jest przykład przetłumaczonego tekstu w celu zademonstrowania funkcjonalności systemu tłumaczenia dokumentów. W rzeczywistej aplikacji znajdowałaby się tutaj pełna przetłumaczona zawartość dokumentu.".toList),
  ("RU".toList, "Это пример переведенного текста для демонстрации функциональности системы перевода документов. В реальном приложении здесь был бы полный переведенный контент документа.".toList),
  ("SK".toList, "Toto je príklad preloženého textu na demonštráciu funkčnosti systému prekladu dokumentov. V skutočnej aplikácii by tu bol úplný preložený obsah dokumentu.".toList),
  ("SL".toList, "To je primer prevedenega besedila za predstavitev funkcionalnosti sistema za prevajanje dokumentov. V pravi aplikaciji bi bila tukaj celotna prevedena vsebina dokumenta.".toList),
  ("UK".toList, "Це приклад перекладеного тексту для демонстрації функціональності системи перекладу документів. У реальній програмі тут був би повний перекладений вміст документа.".toList),
  ("DE".toList, "Dies ist ein Beispiel für übersetzten Text zur Demonstration der Funktionalität des Dokumentenübersetzungssystems. In einer echten Anwendung wäre hier der vollständige übersetzte Inhalt des Dokuments.".toList),
  ("EN".toList, "This is an example of translated text to demonstrate the functionality of the document translation system. In a real application, the complete translated content of the document would be here.".toList),
  ("NL".toList, "Dit is een voorbeeld van vertaalde tekst ter demonstratie van de functionaliteit van het documentvertaalsysteem. In een echte applicatie zou hier de volledige vertaalde inhoud van het document staan.".toList),
  ("SV".toList, "Detta är ett exempel på översatt text för att demonstrera funktionaliteten hos dokumentöversättningssystemet. I en riktig applikation skulle det fullständiga översatta innehållet i dokumentet finnas här.".toList),
  ("DA".toList, "Dette er et eksempel på oversat tekst for at demonstrere funktionaliteten af dokumentoversættelsessystemet. I en rigtig applikation ville det komplette oversatte indhold af dokumentet være her.".toList),
  ("NB".toList, "Dette er et eksempel på oversatt tekst for å demonstrere funksjonaliteten til dokumentoversettelsessystemet. I en ekte applikasjon ville det fullstendige oversatte innholdet i dokumentet være her.".toList),
  ("FR".toList, "Ceci est un exemple de texte traduit pour démontrer la fonctionnalité du système de traduction de documents. Dans une vraie application, le contenu traduit complet du document serait ici.".toList),
  ("ES".toList, "Este es un ejemplo de texto traducido para demostrar la funcionalidad del sistema de traducción de documentos. En una aplicación real, aquí estaría el contenido traducido completo del documento.".toList),
  ("IT".toList, "Questo è un esempio di testo tradotto per dimostrare la funzionalità del sistema di traduzione dei documenti. In una vera applicazione, qui ci sarebbe il contenuto tradotto completo del documento.".toList),
  ("PT".toList, "Este é um exemplo de texto traduzido para demonstrar a funcionalidade do sistema de tradução de documentos. Em uma aplicação real, o conteúdo traduzido completo do documento estaria aqui.".toList),
  ("RO".toList, "Acesta este un exemplu de text tradus pentru a demonstra funcționalitatea sistemului de traducere a documentelor. Într-o aplicație reală, conținutul tradus complet al documentului ar fi aici.".toList),
  ("EL".toList, "Αυτό είναι ένα παράδειγμα μεταφρασμένου κειμένου για την επίδειξη της λειτουργικότητας του συστήματος μετάφρασης εγγράφων. Σε μια πραγματική εφαρμογή, το πλήρες μεταφρασμένο περιεχόμενο του εγγράφου θα ήταν εδώ.".toList),
  ("HU".toList, "Ez egy példa lefordított szövegre a dokumentumfordító rendszer funkcionalitásának bemutatására. Egy valódi alkalmazásban a dokumentum teljes lefordított tartalma lenne itt.".toList),
  ("FI".toList, "Tämä on esimerkki käännetystä tekstistä dokumenttien käännösjärjestelmän toiminnallisuuden esittelemiseksi. Todellisessa sovelluksessa tässä olisi asiakirjan täydellinen käännetty sisältö.".toList),
  ("ET".toList, "See on näide tõlgitud tekstist, et näidata dokumentide tõlkesüsteemi funktsionaalsust. Tegelikus rakenduses oleks siin dokumendi täielik tõlgitud sisu.".toList),
  ("LT".toList, "Tai yra išversto teksto pavyzdys, skirtas pademonstruoti dokumentų vertimo sistemos funkcionalumą. Tikroje programoje čia būtų visas išverstas dokumento turinys.".toList),
  ("LV".toList, "Šis ir tulkota teksta piemērs, lai demonstrētu dokumentu tulkošanas sistēmas funkcionalitāti. Īstā lietojumprogrammā šeit būtu pilns tulkotais dokumenta saturs.".toList),
  ("ZH".toList, "这是翻译文本的示例，用于演示文档翻译系统的功能。在真正的应用程序中，这里将是文档的完整翻译内容。".toList),
  ("JA".toList, "これは、文書翻訳システムの機能を実証するための翻訳されたテキストの例です。実際のアプリケーションでは、ここに文書の完全な翻訳内容があります。".toList),
  ("KO".toList, "이것은 문서 번역 시스템의 기능을 보여주기 위한 번역된 텍스트의 예입니다. 실제 애플리케이션에서는 여기에 문서의 완전한 번역된 내용이 있을 것입니다.".toList),
  ("AR".toList, "هذا مثال على النص المترجم لتوضيح وظائف نظام ترجمة المستندات. في التطبيق الحقيقي، سيكون المحتوى المترجم الكامل للمستند هنا.".toList),
  ("TR".toList, "Bu, belge çeviri sisteminin işlevselliğini göstermek için çevrilmiş metnin bir örneğidir. Gerçek bir uygulamada, belgenin tam çevrilmiş içeriği burada olacaktır.".toList),
  ("ID".toList, "Ini adalah contoh teks yang diterjemahkan untuk mendemonstrasikan fungsionalitas sistem terjemahan dokumen. Dalam aplikasi nyata, konten dokumen yang diterjemahkan lengkap akan berada di sini.".toList)
]

/-- First-match lookup in an association list of strings (JS object index). -/
def lookupStr : List (Str × Str) → Str → Option Str
  | [], _ => none
  | (k, v) :: rest, key => if k = key then some v else lookupStr rest key

/-- Function `generateDemoTranslatedContent(langCode)`:
`demoTexts[langCode] || demoTexts['EN']`. -/
def generateDemoTranslatedContent (langCode : Str) : Str :=
  match lookupStr demoTexts langCode with
  | some v => v
  | none => (lookupStr demoTexts "EN".toList).getD []

/-- Classifies an attempt outcome as a failure: anything other than an ok
response whose payload has `code === 200` and truthy `data`. -/
def attemptFails : Attempt → Bool
  | .netThrow _ => true
  | .resp status _ code data _ _ => !(respOk status && code == 200 && !data.isEmpty)

/-- The attempt loop of the retrying `translateText` in src/unnamed/part_000
(lines 517-610).  Arguments after `maxRetries` are the remaining fuel
(`maxRetries` at entry, strictly more than the remaining attempts) and the
1-based attempt counter.  Every `throw` inside the loop body is caught by
the loop's own `catch`, so the function always produces a string: on a
successful attempt the translated data, on exhaustion (or a non-retryable
failure) the language-specific demo fallback.  The second component
instruments the number of translation-client calls performed. -/
def translateTextP000 (oracle : Nat → Attempt) (targetLang : Str) (maxRetries : Nat) :
    Nat → Nat → Str × Nat
  | 0, _ => (generateDemoTranslatedContent targetLang, 0)
  | fuel + 1, attempt =>
    let recur := fun (_ : Unit) =>
      let r := translateTextP000 oracle targetLang maxRetries fuel (attempt + 1)
      (r.1, r.2 + 1)
    match oracle attempt with
    | .netThrow msg =>
      if attempt < maxRetries ∧ shouldRetryError msg then recur ()
      else (generateDemoTranslatedContent targetLang, 1)
    | .resp status statusText code data _ _ =>
      if respOk status then
        if code = 200 ∧ data ≠ [] then (data, 1)
        else if attempt < maxRetries then recur ()
        else (generateDemoTranslatedContent targetLang, 1)
      else
        if shouldRetry status ∧ attempt < maxRetries then recur ()
        else if attempt < maxRetries ∧ shouldRetryError (httpErrMsg status statusText) then
          recur ()
        else (generateDemoTranslatedContent targetLang, 1)

/-- Entry point of the part_000 retrying `translateText`: attempts start at 1. -/
def translateTextP000Main (oracle : Nat → Attempt) (targetLang : Str)
    (maxRetries : Nat) : Str × Nat :=
  translateTextP000 oracle targetLang maxRetries maxRetries 1

/-- The attempt loop of `translateChunk` in src/script.js (lines 170-225).
Unlike the part_000 translator, on the final failed attempt it throws
(`Except.error`) a wrapping message instead of falling back.  (The `.ok []`
at fuel 0 models the unreachable fall-off-the-loop return for
`maxRetries = 0`.) -/
def translateChunk (oracle : Nat → Attempt) (chunkIndex maxRetries : Nat) :
    Nat → Nat → Except Str Str
  | 0, _ => .ok []
  | fuel + 1, attempt =>
    let handleCatch := fun (m : Str) =>
      if attempt = maxRetries then
        Except.error ("Не удалось перевести часть ".toList ++ natToStr (chunkIndex + 1) ++
          " после ".toList ++ natToStr maxRetries ++ " попыток: ".toList ++ m)
      else translateChunk oracle chunkIndex maxRetries fuel (attempt + 1)
    match oracle attempt with
    | .netThrow msg => handleCatch msg
    | .resp status statusText code data message bodyText =>
      if respOk status then
        if code = 200 ∧ data ≠ [] then .ok data
        else handleCatch ("API Error: ".toList ++ message)
      else handleCatch (httpErrMsg status statusText ++ " - ".toList ++ bodyText)

/-- Entry point of `translateChunk`: attempts start at 1. -/
def translateChunkMain (oracle : Nat → Attempt) (chunkIndex maxRetries : Nat) :
    Except Str Str :=
  translateChunk oracle chunkIndex maxRetries maxRetries 1

/-- A translation client stub that always fails with a retryable network
error. -/
def failNetOracle : Nat → Attempt :=
  fun _ => Attempt.netThrow "ECONNRESET".toList

theorem lookupStr_mem {t : List (Str × Str)} {k : Str} {v : Str}
    (h : lookupStr t k = some v) : ∃ k2, (k2, v) ∈ t := by
  induction t with
  | nil => simp [lookupStr] at h
  | cons p rest ih =>
    obtain ⟨pk, pv⟩ := p
    simp only [lookupStr] at h
    split at h
    · cases h
      exact ⟨pk, List.mem_cons_self _ _⟩
    · obtain ⟨k2, hk⟩ := ih h
      exact ⟨k2, List.mem_cons_of_mem _ hk⟩

theorem demoTexts_vals_ne_nil : ∀ p ∈ demoTexts, p.2 ≠ [] := by decide

theorem generateDemo_ne_nil (lang : Str) : generateDemoTranslatedContent lang ≠ [] := by
  simp only [generateDemoTranslatedContent]
  cases h : lookupStr demoTexts lang with
  | some v =>
    obtain ⟨k2, hk⟩ := lookupStr_mem h
    exact demoTexts_vals_ne_nil _ hk
  | none => decide

theorem translateTextP000_calls_le (oracle : Nat → Attempt) (tl : Str) (maxR : Nat) :
    ∀ fuel attempt, (translateTextP000 oracle tl maxR fuel attempt).2 ≤ fuel := by
  intro fuel
  induction fuel with
  | zero => intro a; simp [translateTextP000]
  | succ fuel ih =>
    intro a
    have hrec := ih (a + 1)
    simp only [translateTextP000]
    split
    · split
      next => exact Nat.succ_le_succ hrec
      next => exact Nat.succ_le_succ (Nat.zero_le _)
    · split
      next =>
        split
        next => exact Nat.succ_le_succ (Nat.zero_le _)
        next =>
          split
          next => exact Nat.succ_le_succ hrec
          next => exact Nat.succ_le_succ (Nat.zero_le _)
      next =>
        split
        next => exact Nat.succ_le_succ hrec
        next =>
          split
          next => exact Nat.succ_le_succ hrec
          next => exact Nat.succ_le_succ (Nat.zero_le _)

theorem translateTextP000_allFail (oracle : Nat → Attempt) (tl : Str) (maxR : Nat)
    (hf : ∀ a, attemptFails (oracle a) = true) :
    ∀ fuel attempt, (translateTextP000 oracle tl maxR fuel attempt).1 =
      generateDemoTranslatedContent tl := by
  intro fuel
  induction fuel with
  | zero => intro a; simp [translateTextP000]
  | succ fuel ih =>
    intro a
    have hfa := hf a
    simp only [translateTextP000]
    split
    next msg hoa =>
      split
      next => exact ih (a + 1)
      next => rfl
    next status st code data m b hoa =>
      rw [hoa] at hfa
      simp only [attemptFails] at hfa
      split
      next hok =>
        split
        next hgood =>
          exfalso
          obtain ⟨hc, hd⟩ := hgood
          simp [hok, hc, List.isEmpty_iff, hd] at hfa
        next =>
          split
          next => exact ih (a + 1)
          next => rfl
      next =>
        split
        next => exact ih (a + 1)
        next =>
          split
          next => exact ih (a + 1)
          next => rfl

theorem translateTextP000_ne_nil (oracle : Nat → Attempt) (tl : Str) (maxR : Nat) :
    ∀ fuel attempt, (translateTextP000 oracle tl maxR fuel attempt).1 ≠ [] := by
  intro fuel
  induction fuel with
  | zero => intro a; simp [translateTextP000]; exact generateDemo_ne_nil tl
  | succ fuel ih =>
    intro a
    simp only [translateTextP000]
    split
    · split
      next => exact ih (a + 1)
      next => exact generateDemo_ne_nil tl
    · split
      next =>
        split
        next hgood => exact hgood.2
        next =>
          split
          next => exact ih (a + 1)
          next => exact generateDemo_ne_nil tl
      next =>
        split
        next => exact ih (a + 1)
        next =>
          split
          next => exact ih (a + 1)
          next => exact generateDemo_ne_nil tl

/-- C1 counterexample: `translateChunk` in src/script.js does not satisfy the
never-throws/fallback contract.  Against a client stub that always fails
with a retryable network error and `maxRetries = 3`, it throws (propagates
an `Except.error`) instead of returning a fallback placeholder. -/
theorem c1_claim_counterexample :
    translateChunkMain failNetOracle 0 3 =
      Except.error ("Не удалось перевести часть 1 после 3 попыток: ECONNRESET".toList) := by
  rfl

/-- C1 (amended): the retrying `translateText` of src/unnamed/part_000 never
throws: for every client behaviour it returns a non-empty string using at
most `maxAttempts` client calls, and when every attempt fails it returns
the deterministic language-specific fallback
`generateDemoTranslatedContent targetLang`.  The `translateChunk` of
src/script.js does not share this property: it throws after `maxAttempts`
failed attempts (see the counterexample). -/
theorem c1_amended_p000_fallback (oracle : Nat → Attempt) (targetLang : Str)
    (maxAttempts : Nat) (h : 1 ≤ maxAttempts) :
    (translateTextP000Main oracle targetLang maxAttempts).2 ≤ maxAttempts ∧
    (translateTextP000Main oracle targetLang maxAttempts).1 ≠ [] ∧
    ((∀ a, attemptFails (oracle a) = true) →
      (translateTextP000Main oracle targetLang maxAttempts).1 =
        generateDemoTranslatedContent targetLang) :=
  ⟨translateTextP000_calls_le oracle targetLang maxAttempts maxAttempts 1,
   translateTextP000_ne_nil oracle targetLang maxAttempts maxAttempts 1,
   fun hf => translateTextP000_allFail oracle targetLang maxAttempts hf maxAttempts 1⟩

/-- Witness for `c1_amended_p000_fallback`: the always-failing stub with
`maxAttempts = 3` and target language DE. -/
theorem c1_amended_p000_fallback_witness :
    1 ≤ 3 ∧
    (translateTextP000Main failNetOracle ("DE".toList) 3).2 ≤ 3 ∧
    (translateTextP000Main failNetOracle ("DE".toList) 3).1 =
      generateDemoTranslatedContent ("DE".toList) :=
  ⟨by decide,
   (c1_amended_p000_fallback failNetOracle ("DE".toList) 3 (by decide)).1,
   (c1_amended_p000_fallback failNetOracle ("DE".toList) 3 (by decide)).2.2
     (fun _ => rfl)⟩

/-! ## Batch scheduler (translateText chunk-window loop,
src/script.js lines 1716-1791) -/

/-- Whether a settled promise was fulfilled. -/
def exOk : Except Str Str → Bool
  | .ok _ => true
  | .error _ => false

/-- The value of a fulfilled promise (dummy for rejections). -/
def exValue : Except Str Str → Str
  | .ok v => v
  | .error _ => []

/-- The `[❌ Ошибка части N: msg]` placeholder pushed for a chunk whose
individual retry also failed. -/
def errorPlaceholder (chunkIndex : Nat) (msg : Str) : Str :=
  "[❌ Ошибка части ".toList ++ natToStr (chunkIndex + 1) ++ ": ".toList ++ msg ++ "]".toList

/-- Outcome of the individual re-translation of chunk `k` performed in the
batch `catch` branch: the translated text, or the error placeholder. -/
def retryResult (o2 : Nat → Except Str Str) (k : Nat) : Str :=
  match o2 k with
  | .ok s => s
  | .error msg => errorPlaceholder k msg

/-- Model of `Promise.all` resolution: completions are processed in the completion
order `sched` (local indices into `outcomes`); each fulfilled promise
writes its value into its own submission-index slot; the first rejection
in completion order rejects the whole combinator. -/
def paGo (outcomes : List (Except Str Str)) :
    List Nat → List (Option Str) → Except Str (List (Option Str))
  | [], slots => .ok slots
  | i :: rest, slots =>
    match outcomes.getD i (.error []) with
    | .error e => .error e
    | .ok v => paGo outcomes rest (slots.set i (some v))

/-- Semantics of `Promise.all(outcomes)` under the completion schedule `sched`: fulfilled
with the slot values in submission order, or rejected with the first
rejection reason. -/
def promiseAll (outcomes : List (Except Str Str)) (sched : List Nat) :
    Except Str (List Str) :=
  match paGo outcomes sched (List.replicate outcomes.length none) with
  | .error e => .error e
  | .ok slots =>
    if slots.all Option.isSome then .ok slots.reduceOption else .error []

/-- The global chunk indices of the window starting at `i`:
`chunks.slice(i, i + c)` positions `i .. min (i+c) n`. -/
def batchIndices (n c i : Nat) : List Nat := List.range' i (min c (n - i))

/-- The chunk-window loop of the large-text path of `translateText`
(src/script.js lines 1716-1791): windows of `c` chunks are submitted
together and awaited with `Promise.all`; on success the window's results
are appended in submission order, on rejection every chunk of the window
is re-translated individually in index order (pushing an error placeholder
for chunks that fail again).  `o1` gives each chunk's first-pass outcome,
`o2` its individual-retry outcome, `sched i` the completion order of the
window starting at `i`. -/
def translateAllLoop (n c : Nat) (o1 o2 : Nat → Except Str Str)
    (sched : Nat → List Nat) : Nat → Nat → List Str
  | 0, _ => []
  | fuel + 1, i =>
    if i < n then
      (match promiseAll ((batchIndices n c i).map o1) (sched i) with
       | .ok vals => vals
       | .error _ => (batchIndices n c i).map (retryResult o2)) ++
      translateAllLoop n c o1 o2 sched fuel (i + c)
    else []

/-- The joined final result (`translatedChunks.join(' ')`). -/
def translateTextChunked (chunks : List Str) (c : Nat) (o1 o2 : Nat → Except Str Str)
    (sched : Nat → List Nat) : Str :=
  List.intercalate [' '] (translateAllLoop chunks.length c o1 o2 sched chunks.length 0)

/-- Schedule-independent reference outcome for chunk `k`: the first-pass
translation if every chunk of `k`'s window succeeded on the first pass,
otherwise the individual-retry outcome. -/
def chunkOutcome (n c : Nat) (o1 o2 : Nat → Except Str Str) (k : Nat) : Str :=
  if ((batchIndices n c (k / c * c)).map o1).all exOk then exValue (o1 k)
  else retryResult o2 k

/-! ### Promise.all lemmas -/

/-- The slot contents after replaying a list of completions. -/
def applyWrites (vals : List Str) (sched : List Nat) (slots : List (Option Str)) :
    List (Option Str) :=
  sched.foldl (fun sl i => sl.set i (some (vals.getD i []))) slots

theorem paGo_map_ok (vals : List Str) :
    ∀ sched slots, (∀ i ∈ sched, i < vals.length) →
      paGo (vals.map Except.ok) sched slots = .ok (applyWrites vals sched slots) := by
  intro sched
  induction sched with
  | nil => intro slots h; rfl
  | cons i rest ih =>
    intro slots h
    have hi : i < vals.length := h i (List.mem_cons_self _ _)
    simp only [paGo, applyWrites, List.foldl_cons]
    have hget : (vals.map (Except.ok : Str → Except Str Str)).getD i (Except.error []) =
        Except.ok (vals.getD i []) := by
      simp [List.getD_eq_getElem?_getD, List.getElem?_eq_getElem hi]
    rw [hget]
    exact ih _ (fun j hj => h j (List.mem_cons_of_mem _ hj))

theorem applyWrites_length (vals : List Str) :
    ∀ sched slots, (applyWrites vals sched slots).length = slots.length := by
  intro sched
  induction sched with
  | nil => intro slots; rfl
  | cons i rest ih =>
    intro slots
    simp only [applyWrites, List.foldl_cons] at ih ⊢
    rw [ih, List.length_set]

theorem applyWrites_getElem? (vals : List Str) :
    ∀ sched slots (j : Nat), (∀ i ∈ sched, i < slots.length) →
      (applyWrites vals sched slots)[j]? =
        if j ∈ sched then some (some (vals.getD j [])) else slots[j]? := by
  intro sched
  induction sched with
  | nil => intro slots j h; simp [applyWrites]
  | cons i rest ih =>
    intro slots j h
    have hi : i < slots.length := h i (List.mem_cons_self _ _)
    simp only [applyWrites, List.foldl_cons] at ih ⊢
    rw [ih _ j (fun x hx => by rw [List.length_set]; exact h x (List.mem_cons_of_mem _ hx))]
    by_cases hjr : j ∈ rest
    · simp [hjr, List.mem_cons]
    · rw [if_neg hjr, List.getElem?_set]
      by_cases hij : i = j
      · subst hij
        simp [hi, List.mem_cons]
      · have hnj : j ∉ (i :: rest) := by
          intro hm
          rcases List.mem_cons.mp hm with hm | hm
          · exact hij hm.symm
          · exact hjr hm
        rw [if_neg hij, if_neg hnj]

theorem reduceOption_map_some (l : List Str) : (l.map some).reduceOption = l := by
  induction l with
  | nil => rfl
  | cons a l ih => simp [List.reduceOption, List.filterMap_cons] at ih ⊢

theorem promiseAll_all_ok (vals : List Str) (sched : List Nat)
    (hperm : sched.Perm (List.range vals.length)) :
    promiseAll (vals.map Except.ok) sched = .ok vals := by
  have hmem : ∀ i ∈ sched, i < vals.length := by
    intro i hi
    have := hperm.mem_iff.mp hi
    simpa using this
  unfold promiseAll
  rw [List.length_map, paGo_map_ok vals sched _ hmem]
  have hget : ∀ j : Nat, (applyWrites vals sched (List.replicate vals.length none))[j]? =
      (vals.map some)[j]? := by
    intro j
    rw [applyWrites_getElem? vals sched _ j (by simpa using hmem)]
    by_cases hj : j ∈ sched
    · have hjn : j < vals.length := hmem j hj
      rw [if_pos hj, List.getElem?_map, List.getElem?_eq_getElem hjn]
      simp [List.getD_eq_getElem?_getD, List.getElem?_eq_getElem hjn]
    · have hjn : ¬ j < vals.length := by
        intro hlt
        exact hj (hperm.mem_iff.mpr (by simpa using hlt))
      rw [if_neg hj, List.getElem?_replicate, if_neg hjn, List.getElem?_map]
      have hnone : vals[j]? = none := List.getElem?_eq_none (by omega)
      rw [hnone]
      rfl
  have heq : applyWrites vals sched (List.replicate vals.length none) = vals.map some :=
    List.ext_getElem? hget
  rw [heq]
  have hall : (vals.map some).all Option.isSome = true := by simp
  simp [hall, reduceOption_map_some]

theorem paGo_hits_error (outcomes : List (Except Str Str)) :
    ∀ sched slots, (∃ j ∈ sched, exOk (outcomes.getD j (Except.error [])) = false) →
      ∃ e, paGo outcomes sched slots = .error e := by
  intro sched
  induction sched with
  | nil => intro slots h; simp at h
  | cons i rest ih =>
    intro slots h
    simp only [paGo]
    split
    next e he => exact ⟨e, rfl⟩
    next v hv =>
      apply ih
      obtain ⟨j, hj, hjf⟩ := h
      rcases List.mem_cons.mp hj with rfl | hjr
      · rw [hv] at hjf
        simp [exOk] at hjf
      · exact ⟨j, hjr, hjf⟩

theorem promiseAll_has_error (outcomes : List (Except Str Str)) (sched : List Nat)
    (hperm : sched.Perm (List.range outcomes.length))
    (hex : ¬ outcomes.all exOk = true) :
    ∃ e, promiseAll outcomes sched = .error e := by
  have hj : ∃ j, j < outcomes.length ∧
      exOk (outcomes.getD j (Except.error [])) = false := by
    rw [List.all_eq_true] at hex
    push_neg at hex
    obtain ⟨x, hx, hxf⟩ := hex
    obtain ⟨j, hjlt, hjx⟩ := List.mem_iff_getElem.mp hx
    refine ⟨j, hjlt, ?_⟩
    rw [List.getD_eq_getElem?_getD, List.getElem?_eq_getElem hjlt]
    simp only [Option.getD_some, hjx]
    simpa using hxf
  obtain ⟨j, hjlt, hjf⟩ := hj
  obtain ⟨e, he⟩ := paGo_hits_error outcomes sched (List.replicate outcomes.length none)
    ⟨j, hperm.mem_iff.mpr (by simpa using hjlt), hjf⟩
  refine ⟨e, ?_⟩
  unfold promiseAll
  rw [he]

theorem mem_range1 {m s n : Nat} : m ∈ List.range' s n ↔ s ≤ m ∧ m < s + n := by
  rw [List.mem_range']
  constructor
  · rintro ⟨i, hi, rfl⟩
    omega
  · rintro ⟨h1, h2⟩
    exact ⟨m - s, by omega, by omega⟩

theorem window_start_eq {c i k : Nat} (hc : 1 ≤ c) (hi : i % c = 0)
    (h1 : i ≤ k) (h2 : k < i + c) : k / c * c = i := by
  have hd := Nat.div_add_mod i c
  have hkd : k / c = i / c := by
    have hr : k = c * (i / c) + (k - i) := by omega
    rw [hr, Nat.mul_add_div (by omega), Nat.div_eq_of_lt (by omega : k - i < c)]
    rfl
  rw [hkd, Nat.mul_comm]
  omega

theorem all_exOk_decompose {l : List (Except Str Str)} (h : l.all exOk = true) :
    l = (l.map exValue).map Except.ok := by
  induction l with
  | nil => rfl
  | cons x xs ih =>
    simp only [List.all_cons, Bool.and_eq_true] at h
    cases x with
    | ok v =>
      simp only [List.map_cons, exValue]
      rw [← ih h.2]
    | error e => simp [exOk] at h

theorem translateAllLoop_eq (n c : Nat) (o1 o2 : Nat → Except Str Str)
    (sched : Nat → List Nat) (hc : 1 ≤ c)
    (hsched : ∀ i, i % c = 0 → i < n →
      (sched i).Perm (List.range (min c (n - i)))) :
    ∀ fuel i, n - i ≤ fuel → i % c = 0 →
      translateAllLoop n c o1 o2 sched fuel i =
        (List.range' i (n - i)).map (chunkOutcome n c o1 o2) := by
  intro fuel
  induction fuel with
  | zero =>
    intro i h hi
    have hz : n - i = 0 := by omega
    simp [translateAllLoop, hz]
  | succ fuel ih =>
    intro i h hi
    simp only [translateAllLoop]
    split
    next hin =>
      have hlen : (batchIndices n c i).length = min c (n - i) := by
        simp [batchIndices]
      have hperm := hsched i hi hin
      have hsplit : List.range' i (n - i) =
          List.range' i (min c (n - i)) ++
          List.range' (i + min c (n - i)) (n - i - min c (n - i)) := by
        rw [List.range'_append_1]
        congr 1
        omega
      have hrest : List.range' (i + min c (n - i)) (n - i - min c (n - i)) =
          List.range' (i + c) (n - (i + c)) := by
        rcases le_or_lt c (n - i) with hcn | hcn
        · have hmc : min c (n - i) = c := by omega
          rw [hmc]
          congr 1
          omega
        · have h1 : n - i - min c (n - i) = 0 := by omega
          have h2 : n - (i + c) = 0 := by omega
          rw [h1, h2]
          rfl
      have hmod : (i + c) % c = 0 := by
        rw [Nat.add_mod_right]
        exact hi
      have hih := ih (i + c) (by omega) hmod
      have hws : ∀ k ∈ batchIndices n c i, k / c * c = i := by
        intro k hk
        have hk2 := mem_range1.mp (by simpa [batchIndices] using hk)
        exact window_start_eq hc hi hk2.1 (by omega)
      rw [hsplit, List.map_append, hrest, ← hih]
      congr 1
      by_cases hall : ((batchIndices n c i).map o1).all exOk = true
      · have hvals := all_exOk_decompose hall
        have hpa : promiseAll ((batchIndices n c i).map o1) (sched i) =
            .ok (((batchIndices n c i).map o1).map exValue) := by
          conv_lhs => rw [hvals]
          exact promiseAll_all_ok _ _ (by simpa [List.length_map, hlen] using hperm)
        rw [hpa]
        show ((batchIndices n c i).map o1).map exValue =
          (List.range' i (min c (n - i))).map (chunkOutcome n c o1 o2)
        rw [List.map_map]
        refine List.map_congr_left ?_
        intro k hk
        have hw := hws k (by simpa [batchIndices] using hk)
        simp [chunkOutcome, hw, hall, Function.comp]
      · obtain ⟨e, he⟩ := promiseAll_has_error ((batchIndices n c i).map o1) (sched i)
          (by simpa [List.length_map, hlen] using hperm) hall
        rw [he]
        show (batchIndices n c i).map (retryResult o2) =
          (List.range' i (min c (n - i))).map (chunkOutcome n c o1 o2)
        refine List.map_congr_left ?_
        intro k hk
        have hw := hws k (by simpa [batchIndices] using hk)
        simp [chunkOutcome, hw, hall]
    next hin =>
      have hz : n - i = 0 := by omega
      simp [hz]

/-- C2: the batch translation loop preserves chunk order for every
concurrency `c ≥ 1` and every completion schedule.  Whatever order the
promises of a window settle in (any permutation `sched i` of the window's
local indices), the produced list equals the schedule-independent
reference `chunkOutcome` mapped over chunk indices `0, 1, …, n-1` in
order, so translated chunk `i` precedes translated chunk `j` whenever
`i < j`, and the joined final text lists the windows' results in input
order. -/
theorem c2_order_preserved (chunks : List Str) (c : Nat) (o1 o2 : Nat → Except Str Str)
    (sched : Nat → List Nat) (hc : 1 ≤ c)
    (hsched : ∀ i, i % c = 0 → i < chunks.length →
      (sched i).Perm (List.range (min c (chunks.length - i)))) :
    translateAllLoop chunks.length c o1 o2 sched chunks.length 0 =
      (List.range chunks.length).map (chunkOutcome chunks.length c o1 o2) ∧
    translateTextChunked chunks c o1 o2 sched =
      List.intercalate [' ']
        ((List.range chunks.length).map (chunkOutcome chunks.length c o1 o2)) := by
  have h := translateAllLoop_eq chunks.length c o1 o2 sched hc hsched
    chunks.length 0 (by omega) (Nat.zero_mod c)
  simp only [Nat.sub_zero] at h
  rw [List.range_eq_range']
  exact ⟨h, by rw [translateTextChunked, h]⟩

/-- Chunks for the C2 witness (contents are irrelevant to scheduling). -/
def c2Chunks : List Str := ["aa".toList, "bb".toList, "cc".toList, "dd".toList]

/-- First-pass outcomes for the C2 witness: chunk 1 fails, others succeed. -/
def c2o1 : Nat → Except Str Str :=
  fun k => if k = 1 then .error ("boom".toList) else .ok ('t' :: natToStr k)

/-- Individual-retry outcomes for the C2 witness. -/
def c2o2 : Nat → Except Str Str := fun k => .ok ('r' :: natToStr k)

/-- Completion schedule for the C2 witness: the first window settles out of
submission order (local order 2, 0, 1). -/
def c2sched : Nat → List Nat := fun i => if i = 0 then [2, 0, 1] else [0]

/-- Witness for `c2_order_preserved` with an out-of-order completion
schedule. -/
theorem c2_order_preserved_witness :
    translateAllLoop c2Chunks.length PARALLEL_CHUNKS c2o1 c2o2 c2sched
        c2Chunks.length 0 =
      (List.range c2Chunks.length).map
        (chunkOutcome c2Chunks.length PARALLEL_CHUNKS c2o1 c2o2) ∧
    translateTextChunked c2Chunks PARALLEL_CHUNKS c2o1 c2o2 c2sched =
      List.intercalate [' ']
        ((List.range c2Chunks.length).map
          (chunkOutcome c2Chunks.length PARALLEL_CHUNKS c2o1 c2o2)) := by
  refine c2_order_preserved c2Chunks PARALLEL_CHUNKS c2o1 c2o2 c2sched (by decide) ?_
  intro i h1 h2
  have h4 : i < 4 := by simpa [c2Chunks] using h2
  interval_cases i
  · decide
  · exact absurd h1 (by decide)
  · exact absurd h1 (by decide)
  · decide

/-! ## Document job processing (`processDocumentAsync`,
src/api/documents.js lines 296-373) -/

/-- Task and per-language result statuses (the JS string values `pending`,
`processing`, `completed`, `error`). -/
inductive TaskStatus where
  | pending
  | processing
  | completed
  | error
deriving DecidableEq

/-- One entry of `task.results`: the per-language outcome pushed by the
language loop of `processDocumentAsync`. -/
structure LanguageResult where
  langCode : Str
  status : TaskStatus
  documentId : Option Str
  translatedText : Option Str
  downloadUrl : Option Str
  errMsg : Option Str

/-- A document translation task as created by `handleDocumentProcessing`. -/
structure DocTask where
  id : Str
  fileId : Str
  fileName : Str
  sourceLang : Str
  targetLangs : List Str
  status : TaskStatus
  progress : ℚ
  results : List LanguageResult

/-- The task literal created by `handleDocumentProcessing`
(src/api/documents.js lines 102-113). -/
def mkTask (id fileId fileName sourceLang : Str) (targetLangs : List Str) : DocTask :=
  { id := id, fileId := fileId, fileName := fileName, sourceLang := sourceLang,
    targetLangs := targetLangs, status := .pending, progress := 0, results := [] }

/-- Function `extractTextFromDocument` (src/api/documents.js lines 375-383): a mock
that always succeeds with a fixed template mentioning the file id. -/
def extractTextFromDocument (fileId : Str) : Str :=
  "Это пример текста, извлеченного из документа ".toList ++ fileId ++
  ". \nОн содержит несколько предложений для демонстрации работы системы перевода документов. \nВ реальной системе здесь был бы текст, извлеченный из PDF, DOC, DOCX или другого формата файла.".toList

/-- The progress written after finishing target language number `i`
(0-based) of `n`: `20 + (80 * (i + 1)) / totalLangs`. -/
def langProgress (n : Nat) (i : Nat) : ℚ :=
  20 + (80 * ((i : ℚ) + 1)) / (n : ℚ)

/-- The result entry pushed for one target language: `completed` with a
document id and the translated text when the translation call succeeds,
`error` with the message when it throws. -/
def langEntry (tr : Str → Except Str Str) (docIdGen : Str → Str) (taskId : Str)
    (langCode : Str) : LanguageResult :=
  match tr langCode with
  | .ok translatedText =>
    { langCode := langCode, status := .completed,
      documentId := some (docIdGen langCode),
      translatedText := some translatedText,
      downloadUrl := some ("mock://download/".toList ++ taskId ++ "/".toList ++ langCode),
      errMsg := none }
  | .error msg =>
    { langCode := langCode, status := .error, documentId := none,
      translatedText := none, downloadUrl := none, errMsg := some msg }

/-- The `for (let i = 0; i < totalLangs; i++)` loop of
`processDocumentAsync`: translates each target language (errors are caught
and recorded per language), pushes one result entry per language and
updates `task.progress` after each.  The trace accumulates every value
written to `task.progress`. -/
def processLangs (tr : Str → Except Str Str) (docIdGen : Str → Str) (taskId : Str)
    (totalLangs : Nat) :
    List Str → Nat → DocTask → List ℚ → DocTask × List ℚ
  | [], _, task, trace => (task, trace)
  | langCode :: rest, i, task, trace =>
    let task2 := { task with
      results := task.results ++ [langEntry tr docIdGen taskId langCode] }
    let task3 := { task2 with progress := langProgress totalLangs i }
    processLangs tr docIdGen taskId totalLangs rest (i + 1) task3
      (trace ++ [langProgress totalLangs i])

/-- Function `processDocumentAsync` (src/api/documents.js lines 296-373) on a task:
status `processing`, progress 10, extraction (the mock never fails),
progress 20, the per-language loop, then status `completed` and progress
100.  `tOracle text lang` is the outcome of the translation call (the only
fallible step; its failures are caught inside the loop).  Returns the
final task and the ordered list of all values written to `task.progress`. -/
def processDocumentAsync (tOracle : Str → Str → Except Str Str) (docIdGen : Str → Str)
    (task : DocTask) : DocTask × List ℚ :=
  let t1 := { task with status := .processing, progress := 10 }
  let extractedText := extractTextFromDocument task.fileId
  let t2 := { t1 with progress := 20 }
  let r := processLangs (tOracle extractedText) docIdGen task.id
    task.targetLangs.length task.targetLangs 0 t2 [(10 : ℚ), 20]
  ({ r.1 with status := .completed, progress := 100 }, r.2 ++ [100])

theorem processLangs_spec (tr : Str → Except Str Str) (docIdGen : Str → Str)
    (taskId : Str) (n : Nat) :
    ∀ langs i task trace,
      (processLangs tr docIdGen taskId n langs i task trace).1.results =
        task.results ++ langs.map (langEntry tr docIdGen taskId) ∧
      (processLangs tr docIdGen taskId n langs i task trace).1.status = task.status ∧
      (processLangs tr docIdGen taskId n langs i task trace).1.targetLangs =
        task.targetLangs ∧
      (processLangs tr docIdGen taskId n langs i task trace).2 =
        trace ++ (List.range' i langs.length).map (langProgress n) := by
  intro langs
  induction langs with
  | nil => intro i task trace; simp [processLangs]
  | cons lc rest ih =>
    intro i task trace
    simp only [processLangs]
    obtain ⟨h1, h2, h3, h4⟩ := ih (i + 1)
      { task with
          results := task.results ++ [langEntry tr docIdGen taskId lc]
          progress := langProgress n i }
      (trace ++ [langProgress n i])
    refine ⟨?_, ?_, ?_, ?_⟩
    · rw [h1]
      simp
    · rw [h2]
    · rw [h3]
    · rw [h4]
      simp [List.range'_succ]

theorem langEntry_langCode (tr : Str → Except Str Str) (docIdGen : Str → Str)
    (taskId lc : Str) : (langEntry tr docIdGen taskId lc).langCode = lc := by
  unfold langEntry
  split <;> rfl

theorem langEntry_status (tr : Str → Except Str Str) (docIdGen : Str → Str)
    (taskId lc : Str) :
    (langEntry tr docIdGen taskId lc).status = TaskStatus.completed ∨
    (langEntry tr docIdGen taskId lc).status = TaskStatus.error := by
  unfold langEntry
  split
  · left; rfl
  · right; rfl

/-- C5: for every translation-call behaviour, a processed document job ends
in a terminal status, and whenever the status is terminal the results list
has exactly one entry per requested target language, in order, each entry
itself `completed` or `error` — no requested target language is missing.
(In the code as written the only reachable terminal status is `completed`:
text extraction is an infallible mock and every translation failure is
caught inside the per-language loop.) -/
theorem c5_terminal_results_complete (tOracle : Str → Str → Except Str Str)
    (docIdGen : Str → Str) (id fileId fileName sourceLang : Str)
    (targetLangs : List Str) :
    (processDocumentAsync tOracle docIdGen
        (mkTask id fileId fileName sourceLang targetLangs)).1.status =
      TaskStatus.completed ∧
    (processDocumentAsync tOracle docIdGen
        (mkTask id fileId fileName sourceLang targetLangs)).1.results.map
        (fun r => r.langCode) = targetLangs ∧
    ∀ r ∈ (processDocumentAsync tOracle docIdGen
        (mkTask id fileId fileName sourceLang targetLangs)).1.results,
      r.status = TaskStatus.completed ∨ r.status = TaskStatus.error := by
  obtain ⟨h1, h2, h3, h4⟩ := processLangs_spec
    (tOracle (extractTextFromDocument fileId)) docIdGen id targetLangs.length
    targetLangs 0
    { mkTask id fileId fileName sourceLang targetLangs with
      status := .processing, progress := 20 }
    [(10 : ℚ), 20]
  refine ⟨rfl, ?_, ?_⟩
  · show (processLangs (tOracle (extractTextFromDocument fileId)) docIdGen id
      targetLangs.length targetLangs 0 _ _).1.results.map (fun r => r.langCode) = _
    rw [h1]
    simp only [mkTask, List.nil_append, List.map_map]
    refine List.map_congr_left ?_ |>.trans (List.map_id _)
    intro lc _
    exact langEntry_langCode _ _ _ lc
  · intro r hr
    rw [show (processDocumentAsync tOracle docIdGen
        (mkTask id fileId fileName sourceLang targetLangs)).1.results =
      (processLangs (tOracle (extractTextFromDocument fileId)) docIdGen id
        targetLangs.length targetLangs 0
        { mkTask id fileId fileName sourceLang targetLangs with
          status := .processing, progress := 20 } [(10 : ℚ), 20]).1.results from rfl,
      h1] at hr
    simp only [mkTask, List.nil_append, List.mem_map] at hr
    obtain ⟨lc, _, hlc⟩ := hr
    rw [← hlc]
    exact langEntry_status _ _ _ lc

theorem langProgress_step (n j : Nat) : langProgress n j ≤ langProgress n (j + 1) := by
  have hdiff : langProgress n (j + 1) - langProgress n j = 80 / (n : ℚ) := by
    unfold langProgress
    push_cast
    ring
  have hnn : (0 : ℚ) ≤ 80 / (n : ℚ) :=
    div_nonneg (by norm_num) (Nat.cast_nonneg n)
  linarith

theorem langProgress_ge (n j : Nat) : 20 ≤ langProgress n j := by
  unfold langProgress
  have hnn : (0 : ℚ) ≤ (80 * ((j : ℚ) + 1)) / (n : ℚ) := by
    apply div_nonneg _ (Nat.cast_nonneg n)
    positivity
  linarith

theorem langProgress_last (n : Nat) (hn : 1 ≤ n) : langProgress n (n - 1) = 100 := by
  unfold langProgress
  have hc : ((n - 1 : Nat) : ℚ) + 1 = (n : ℚ) := by
    rw [Nat.cast_sub hn]
    norm_num
  rw [hc, mul_div_assoc, div_self (by
    have : (0 : ℚ) < (n : ℚ) := by exact_mod_cast hn
    exact this.ne'), mul_one]
  norm_num

theorem langProgress_le_100 (n j : Nat) (hj : j < n) : langProgress n j ≤ 100 := by
  have h1 : langProgress n j ≤ langProgress n (n - 1) := by
    have : ∀ d j2, langProgress n j2 ≤ langProgress n (j2 + d) := by
      intro d
      induction d with
      | zero => intro j2; exact le_refl _
      | succ d ih =>
        intro j2
        calc langProgress n j2 ≤ langProgress n (j2 + d) := ih j2
          _ ≤ langProgress n (j2 + d + 1) := langProgress_step n (j2 + d)
    have h2 := this (n - 1 - j) j
    rwa [show j + (n - 1 - j) = n - 1 by omega] at h2
  rw [langProgress_last n (by omega)] at h1
  exact h1

theorem chain'_map_range' (f : Nat → ℚ) (hf : ∀ j, f j ≤ f (j + 1)) :
    ∀ len a, ((List.range' a len).map f).Chain' (· ≤ ·) := by
  intro len
  induction len with
  | zero => intro a; simp
  | succ len ih =>
    intro a
    rw [List.range'_succ, List.map_cons, List.chain'_cons']
    refine ⟨?_, ih (a + 1)⟩
    intro y hy
    cases len with
    | zero => simp at hy
    | succ len2 =>
      rw [List.range'_succ, List.map_cons] at hy
      simp only [List.head?_cons, Option.mem_def, Option.some.injEq] at hy
      rw [← hy]
      exact hf a

theorem head?_map_range' (f : Nat → ℚ) (len a : Nat) (h : 0 < len) :
    ((List.range' a len).map f).head? = some (f a) := by
  cases len with
  | zero => omega
  | succ len => rw [List.range'_succ, List.map_cons, List.head?_cons]

theorem getLast?_map_range' (f : Nat → ℚ) :
    ∀ len a, 0 < len → ((List.range' a len).map f).getLast? = some (f (a + len - 1)) := by
  intro len
  induction len with
  | zero => intro a h; omega
  | succ len ih =>
    intro a _
    cases len with
    | zero => simp [List.range'_succ]
    | succ len2 =>
      have hshape : (List.range' (a + 1) (len2 + 1)).map f =
          f (a + 1) :: (List.range' (a + 2) len2).map f := by
        rw [List.range'_succ, List.map_cons]
      rw [List.range'_succ, List.map_cons, hshape, List.getLast?_cons_cons, ← hshape,
        ih (a + 1) (by omega)]
      congr 2
      omega

set_option maxHeartbeats 1000000 in
/-- C6: the sequence of values written to `task.progress` while a document
job is processed is monotonically non-decreasing, and for a job that runs
to completion it ends at exactly 100. -/
theorem c6_progress_monotone (tOracle : Str → Str → Except Str Str)
    (docIdGen : Str → Str) (id fileId fileName sourceLang : Str)
    (targetLangs : List Str) :
    List.Chain' (· ≤ ·) (processDocumentAsync tOracle docIdGen
        (mkTask id fileId fileName sourceLang targetLangs)).2 ∧
    (processDocumentAsync tOracle docIdGen
        (mkTask id fileId fileName sourceLang targetLangs)).2.getLast? =
      some 100 := by
  obtain ⟨-, -, -, h4⟩ := processLangs_spec
    (tOracle (extractTextFromDocument fileId)) docIdGen id targetLangs.length
    targetLangs 0
    { mkTask id fileId fileName sourceLang targetLangs with
      status := .processing, progress := 20 }
    [(10 : ℚ), 20]
  have htr : (processDocumentAsync tOracle docIdGen
      (mkTask id fileId fileName sourceLang targetLangs)).2 =
      ([(10 : ℚ), 20] ++
        (List.range' 0 targetLangs.length).map (langProgress targetLangs.length)) ++
      [100] := by
    show (processLangs (tOracle (extractTextFromDocument fileId)) docIdGen id
      targetLangs.length targetLangs 0
      { mkTask id fileId fileName sourceLang targetLangs with
        status := .processing, progress := 20 }
      [(10 : ℚ), 20]).2 ++ [100] = _
    rw [h4]
  rw [htr]
  constructor
  · refine List.Chain'.append ?_ ?_ ?_
    · refine List.Chain'.append ?_
        (chain'_map_range' _ (langProgress_step targetLangs.length) _ _) ?_
      · simp [List.chain'_cons]
        norm_num
      · intro x hx y hy
        rcases Nat.eq_zero_or_pos targetLangs.length with hn | hn
        · rw [hn] at hy
          simp at hy
        · rw [head?_map_range' _ _ _ hn] at hy
          simp at hx hy
          subst hx
          subst hy
          exact langProgress_ge targetLangs.length 0
    · simp
    · intro x hx y hy
      simp at hy
      subst hy
      rcases Nat.eq_zero_or_pos targetLangs.length with hn | hn
      · rw [hn] at hx
        simp at hx
        subst hx
        norm_num
      · rw [List.getLast?_append, getLast?_map_range' _ _ _ hn] at hx
        simp only [Option.or_some, Option.mem_def, Option.some.injEq] at hx
        rw [← hx]
        exact langProgress_le_100 targetLangs.length (0 + targetLangs.length - 1)
          (by omega)
  · exact List.getLast?_concat _

/-! ## Concurrent text translations (`translateText` entry/exit protocol,
src/script.js lines 1643-1859) -/

/-- Scheduling events of two `translateText` invocations A and B: `enter`
is the synchronous prefix up to the first await (the `isTranslating`
guard, `currentTranslationId++` and the capture of `thisTranslationId`),
`complete` is the resumption after the awaited translation settles (the
generation check, the output write, and the `finally` block). -/
inductive UiEvent where
  | enterA
  | completeA
  | enterB
  | completeB
deriving DecidableEq

/-- The shared state touched by `translateText`: the re-entrancy flag, the
request-generation counter, the output field, and each run's captured
`thisTranslationId` (`none` while the run has not entered or was rejected
by the guard). -/
structure UiState where
  isTranslating : Bool
  currentTranslationId : Nat
  outputText : Str
  thisIdA : Option Nat
  thisIdB : Option Nat

/-- Initial state (src/script.js lines 1147-1148). -/
def uiInit : UiState :=
  { isTranslating := false, currentTranslationId := 0, outputText := [],
    thisIdA := none, thisIdB := none }

/-- One scheduling step.  `enter`: if `isTranslating` the call returns at
once (no state change, no token); otherwise it sets `isTranslating`,
increments `currentTranslationId` and captures it.  `complete`: a rejected
run has already returned (no-op); a started run writes its result to the
output only when its token still equals `currentTranslationId`, and the
`finally` block clears `isTranslating` under the same condition. -/
def uiStep (aRes bRes : Str) (s : UiState) : UiEvent → UiState
  | .enterA =>
    if s.isTranslating then s
    else { s with
             isTranslating := true
             currentTranslationId := s.currentTranslationId + 1
             thisIdA := some (s.currentTranslationId + 1) }
  | .completeA =>
    match s.thisIdA with
    | none => s
    | some tid =>
      if tid = s.currentTranslationId then
        { s with outputText := aRes, isTranslating := false }
      else s
  | .enterB =>
    if s.isTranslating then s
    else { s with
             isTranslating := true
             currentTranslationId := s.currentTranslationId + 1
             thisIdB := some (s.currentTranslationId + 1) }
  | .completeB =>
    match s.thisIdB with
    | none => s
    | some tid =>
      if tid = s.currentTranslationId then
        { s with outputText := bRes, isTranslating := false }
      else s

/-- Replay a schedule of events from the initial state. -/
def uiRun (aRes bRes : Str) (events : List UiEvent) : UiState :=
  events.foldl (uiStep aRes bRes) uiInit

/-- C7 counterexample: starting translation B while translation A is in
flight does not leave only B's output visible.  B is rejected by the
`isTranslating` guard (it never captures a superseding generation token),
A completes normally, and A's output is what remains after both settle. -/
theorem c7_claim_counterexample :
    (uiRun ("A-output".toList) ("B-output".toList)
      [.enterA, .enterB, .completeA, .completeB]).outputText = "A-output".toList ∧
    (uiRun ("A-output".toList) ("B-output".toList)
      [.enterA, .enterB, .completeA, .completeB]).outputText ≠ "B-output".toList ∧
    (uiRun ("A-output".toList) ("B-output".toList)
      [.enterA, .enterB, .completeA, .completeB]).thisIdB = none := by
  refine ⟨rfl, ?_, rfl⟩
  decide

/-- C7 (amended): a translation request made while another is in flight is
rejected by the `isTranslating` mutual-exclusion guard: it performs no
output write and captures no generation token, so the in-flight run's
token still equals `currentTranslationId` and its output is what remains
visible once both invocations settle.  Mutual exclusion, not token-based
supersession, is what prevents clobbering in this flow. -/
theorem c7_amended_reject_while_in_flight (aRes bRes : Str) (events : List UiEvent)
    (h : events = [.enterA, .enterB, .completeA, .completeB] ∨
         events = [.enterA, .enterB, .completeB, .completeA]) :
    (uiRun aRes bRes events).outputText = aRes ∧
    (uiRun aRes bRes events).thisIdB = none ∧
    (uiRun aRes bRes events).currentTranslationId = 1 := by
  rcases h with rfl | rfl <;> exact ⟨rfl, rfl, rfl⟩

/-- Witness for `c7_amended_reject_while_in_flight` at a concrete schedule. -/
theorem c7_amended_reject_while_in_flight_witness :
    (uiRun ("A-output".toList) ("B-output".toList)
      [.enterA, .enterB, .completeA, .completeB]).outputText = "A-output".toList ∧
    (uiRun ("A-output".toList) ("B-output".toList)
      [.enterA, .enterB, .completeA, .completeB]).thisIdB = none ∧
    (uiRun ("A-output".toList) ("B-output".toList)
      [.enterA, .enterB, .completeA, .completeB]).currentTranslationId = 1 :=
  c7_amended_reject_while_in_flight ("A-output".toList) ("B-output".toList) _
    (Or.inl rfl)

/-! ## Document queue clearing (`clearDocumentQueue`,
src/script.js lines 2776-2784, and `startBatchProcessing`, lines 2567-2603) -/

/-- An entry of the client-side document queue (only identity matters for
the clearing claim). -/
structure QueueItem where
  fileName : Str

/-- Function `clearDocumentQueue`: returns the new queue contents.  The surrounding
scope's `isProcessingBatch` flag is passed in to show it is never
consulted: the only guards are queue emptiness and the user's `confirm`
answer. -/
def clearDocumentQueue (documentQueue : List QueueItem)
    (isProcessingBatch : Bool) (confirmAnswer : Bool) : List QueueItem :=
  if documentQueue.length = 0 then documentQueue
  else if confirmAnswer then [] else documentQueue

/-- C8 counterexample: while batch processing is running
(`isProcessingBatch = true`), a confirmed clear request empties a
non-empty queue — clearing is not restricted to the not-running state. -/
theorem c8_claim_counterexample :
    clearDocumentQueue [⟨"report.txt".toList⟩] true true = [] := rfl

/-- C8 (amended): `clearDocumentQueue` empties any non-empty queue whenever
the user confirms, regardless of `isProcessingBatch`; its result does not
depend on whether batch processing is running. -/
theorem c8_amended_clear_unguarded (documentQueue : List QueueItem)
    (isProcessingBatch : Bool) (confirmAnswer : Bool)
    (hq : documentQueue ≠ []) (hc : confirmAnswer = true) :
    clearDocumentQueue documentQueue isProcessingBatch confirmAnswer = [] ∧
    clearDocumentQueue documentQueue isProcessingBatch confirmAnswer =
      clearDocumentQueue documentQueue false confirmAnswer := by
  subst hc
  unfold clearDocumentQueue
  have hlen : ¬ documentQueue.length = 0 := by
    simpa [List.length_eq_zero] using hq
  simp [hlen]

/-- Witness for `c8_amended_clear_unguarded` at a concrete state. -/
theorem c8_amended_clear_unguarded_witness :
    clearDocumentQueue [⟨"report.txt".toList⟩] true true = [] ∧
    clearDocumentQueue [⟨"report.txt".toList⟩] true true =
      clearDocumentQueue [⟨"report.txt".toList⟩] false true :=
  c8_amended_clear_unguarded [⟨"report.txt".toList⟩] true true (List.cons_ne_nil _ _) rfl

/-! ## Download filenames and Content-Disposition
(src/unnamed/part_000 lines 318-358: `generateFileName`,
`buildContentDisposition`, `sanitizeFileName`) -/

/-- UTF-8 bytes of a character (code point encoding). -/
def utf8Bytes (c : Char) : List Nat :=
  let n := c.toNat
  if n < 0x80 then [n]
  else if n < 0x800 then [0xC0 + n / 0x40, 0x80 + n % 0x40]
  else if n < 0x10000 then
    [0xE0 + n / 0x1000, 0x80 + n / 0x40 % 0x40, 0x80 + n % 0x40]
  else
    [0xF0 + n / 0x40000, 0x80 + n / 0x1000 % 0x40, 0x80 + n / 0x40 % 0x40,
     0x80 + n % 0x40]

/-- Uppercase hexadecimal digit. -/
def hexDigit (n : Nat) : Char :=
  if n < 10 then Char.ofNat (48 + n) else Char.ofNat (55 + n)

/-- Percent-escape of one byte, `%XX`. -/
def percentByte (b : Nat) : Str :=
  ['%', hexDigit (b / 16), hexDigit (b % 16)]

/-- The characters JavaScript `encodeURIComponent` leaves unescaped. -/
def uriUnreserved (c : Char) : Bool :=
  ('A' ≤ c && c ≤ 'Z') || ('a' ≤ c && c ≤ 'z') || ('0' ≤ c && c ≤ '9') ||
  c = '-' || c = '_' || c = '.' || c = '!' || c = '~' || c = '*' || c = apos ||
  c = '(' || c = ')'

/-- JavaScript `encodeURIComponent`: unreserved characters pass through,
everything else becomes the percent-escapes of its UTF-8 bytes. -/
def encodeURIComponent (s : Str) : Str :=
  catList (s.map fun c =>
    if uriUnreserved c then [c] else catList ((utf8Bytes c).map percentByte))

/-- The characters removed by `sanitizeFileName`'s second replace,
`[<>:"/\\|?*]`. -/
def forbiddenFileChar (c : Char) : Bool :=
  c = '<' || c = '>' || c = ':' || c = '"' || c = '/' || c = '\\' || c = '|' ||
  c = '?' || c = '*'

/-- Worker for `collapseRuns`: the flag records whether the previous
character was part of a run already replaced. -/
def collapseRunsGo (p : Char → Bool) (rep : Char) : Bool → Str → Str
  | _, [] => []
  | inRun, c :: cs =>
    if p c then
      if inRun then collapseRunsGo p rep true cs
      else rep :: collapseRunsGo p rep true cs
    else c :: collapseRunsGo p rep false cs

/-- Replaces every maximal run of characters matching `p` by the single
character `rep` (the effect of a `/X+/g` replace). -/
def collapseRuns (p : Char → Bool) (rep : Char) (s : Str) : Str :=
  collapseRunsGo p rep false s

/-- Removes the characters matching `p` at the end of the string. -/
def dropLastWhile (p : Char → Bool) (s : Str) : Str :=
  (s.reverse.dropWhile p).reverse

/-- Function `sanitizeFileName` (src/unnamed/part_000 lines 345-358): non-ASCII
characters, header-hostile characters and whitespace runs become
underscores, underscore runs are collapsed, edge underscores are stripped,
the result is cut to 200 characters, and an empty result falls back to
`document`. -/
def sanitizeFileName (fileName : Str) : Str :=
  let s1 := fileName.map fun c =>
    if 0x20 ≤ c.toNat ∧ c.toNat ≤ 0x7E then c else '_'
  let s2 := s1.map fun c => if forbiddenFileChar c then '_' else c
  let s3 := collapseRuns isJsSpace '_' s2
  let s4 := collapseRuns (fun c => c = '_') '_' s3
  let s5 := dropLastWhile (fun c => c = '_') (s4.dropWhile (fun c => c = '_'))
  let s6 := s5.take 200
  if s6 = [] then "document".toList else s6

/-- Function `generateFileName` (src/unnamed/part_000 lines 318-326): strips a final
extension (`/\.[^/.]+$/`), appends `_<langCode>`, and re-appends the
extension (or `.txt` when the name has no dot). -/
def generateFileName (originalFileName : Str) (langCode : Str) : Str :=
  let nameWithoutExt :=
    match jsLastIndexOf originalFileName ['.'] with
    | none => originalFileName
    | some p =>
      let suffix := originalFileName.drop (p + 1)
      if suffix ≠ [] ∧ suffix.all (fun c => !(c == '/') && !(c == '.')) then
        originalFileName.take p
      else originalFileName
  let extension :=
    if jsIncludes originalFileName ['.'] then
      originalFileName.drop ((jsLastIndexOf originalFileName ['.']).getD 0)
    else ".txt".toList
  let baseName :=
    if nameWithoutExt = [] then "translated_document".toList else nameWithoutExt
  baseName ++ ['_'] ++ langCode ++ extension

/-- Function `buildContentDisposition` (src/unnamed/part_000 lines 331-340): quotes
the sanitized name and adds an RFC 5987 `filename*` parameter holding
`encodeURIComponent` of that same sanitized name. -/
def buildContentDisposition (fileName : Str) : Str :=
  let sanitizedFileName := sanitizeFileName fileName
  let encodedFileName := encodeURIComponent sanitizedFileName
  "attachment; filename=\"".toList ++ sanitizedFileName ++
    "\"; filename*=UTF-8".toList ++ [apos, apos] ++ encodedFileName

/-- The header the specification describes (follows the spec's words for
C9): the quoted `filename` is the sanitized ASCII-safe name, while the
RFC 5987 `filename*` parameter carries the percent-encoded
ORIGINAL Unicode file name. -/
def specContentDisposition (fileName : Str) : Str :=
  "attachment; filename=\"".toList ++ sanitizeFileName fileName ++
    "\"; filename*=UTF-8".toList ++ [apos, apos] ++ encodeURIComponent fileName

/-- A non-ASCII original file name for the C9 counterexample. -/
def c9FileName : Str := "привет.txt".toList

/-- The restricted ASCII-safe character set the sanitized filename is drawn
from: printable ASCII, no whitespace, none of the header-hostile
characters. -/
def asciiSafeChar (c : Char) : Bool :=
  decide (0x20 ≤ c.toNat) && decide (c.toNat ≤ 0x7E) && !isJsSpace c &&
    !forbiddenFileChar c

theorem collapseRunsGo_mem {p : Char → Bool} {rep : Char} :
    ∀ s b, ∀ c ∈ collapseRunsGo p rep b s, c = rep ∨ (c ∈ s ∧ p c = false) := by
  intro s
  induction s with
  | nil => intro b c hc; simp [collapseRunsGo] at hc
  | cons d ds ih =>
    intro b c hc
    simp only [collapseRunsGo] at hc
    split at hc
    next hd =>
      split at hc
      · rcases ih true c hc with h | ⟨hmem, hp⟩
        · left; exact h
        · right; exact ⟨List.mem_cons_of_mem _ hmem, hp⟩
      · rcases List.mem_cons.mp hc with rfl | hc2
        · left; rfl
        · rcases ih true c hc2 with h | ⟨hmem, hp⟩
          · left; exact h
          · right; exact ⟨List.mem_cons_of_mem _ hmem, hp⟩
    next hd =>
      rcases List.mem_cons.mp hc with rfl | hc2
      · right
        exact ⟨List.mem_cons_self _ _, by simpa using hd⟩
      · rcases ih false c hc2 with h | ⟨hmem, hp⟩
        · left; exact h
        · right; exact ⟨List.mem_cons_of_mem _ hmem, hp⟩

theorem collapseRuns_mem {p : Char → Bool} {rep : Char} {s : Str} :
    ∀ c ∈ collapseRuns p rep s, c = rep ∨ (c ∈ s ∧ p c = false) :=
  fun c hc => collapseRunsGo_mem s false c hc

theorem sanitizeFileName_safe (fileName : Str) :
    ∀ c ∈ sanitizeFileName fileName, asciiSafeChar c = true := by
  intro c hc
  simp only [sanitizeFileName] at hc
  split at hc
  next =>
    have hall : ∀ x ∈ ("document".toList : Str), asciiSafeChar x = true := by decide
    exact hall c hc
  next h6 =>
    -- back through take, dropLastWhile, dropWhile
    have hc5 := List.mem_of_mem_take hc
    have hc4 : c ∈ (collapseRuns (fun c => c = '_') '_'
        (collapseRuns isJsSpace '_'
          ((fileName.map fun c =>
              if 0x20 ≤ c.toNat ∧ c.toNat ≤ 0x7E then c else '_').map
            fun c => if forbiddenFileChar c then '_' else c))) := by
      simp only [dropLastWhile, List.mem_reverse] at hc5
      have h1 := List.dropWhile_subset (fun c => c = '_') hc5
      rw [List.mem_reverse] at h1
      exact List.dropWhile_subset (fun c => c = '_') h1
    have hsafe_underscore : asciiSafeChar '_' = true := by decide
    rcases collapseRuns_mem c hc4 with rfl | ⟨hc3, _⟩
    · exact hsafe_underscore
    rcases collapseRuns_mem c hc3 with rfl | ⟨hc2, hsp⟩
    · exact hsafe_underscore
    obtain ⟨x, hx1, hx2⟩ := List.mem_map.mp hc2
    obtain ⟨y, _, hy2⟩ := List.mem_map.mp hx1
    by_cases hf : forbiddenFileChar x = true
    · rw [hf] at hx2
      simp only [if_pos rfl] at hx2
      rw [← hx2]
      exact hsafe_underscore
    · have hx2' : x = c := by
        rw [← hx2]
        simp [hf]
      subst hx2'
      have hrange : 0x20 ≤ x.toNat ∧ x.toNat ≤ 0x7E := by
        by_cases hy : 0x20 ≤ y.toNat ∧ y.toNat ≤ 0x7E
        · rw [if_pos hy] at hy2
          rw [hy2] at hy
          exact hy
        · rw [if_neg hy] at hy2
          rw [← hy2]
          decide
      simp only [asciiSafeChar, Bool.and_eq_true, decide_eq_true_eq,
        Bool.not_eq_true']
      exact ⟨⟨⟨hrange.1, hrange.2⟩, hsp⟩, by simpa using hf⟩

theorem sanitizeFileName_ne_nil (fileName : Str) : sanitizeFileName fileName ≠ [] := by
  simp only [sanitizeFileName]
  split
  next => decide
  next h => exact h

theorem begWith_dot_head {t : Str} (h : begWith ['.'] t = true) : t.head? = some '.' := by
  cases t with
  | nil => simp [begWith] at h
  | cons c cs =>
    simp only [begWith, Bool.and_eq_true, decide_eq_true_eq] at h
    rw [List.head?_cons, ← h.1]

/-- C9 counterexample: for the non-ASCII original name `привет.txt` and
language `EN`, the produced `Content-Disposition` differs from the header
the specification describes: its RFC 5987 `filename*` parameter carries
the percent-encoding of the *sanitized* name (`EN.txt`), not of the
original Unicode name, so the original non-ASCII filename does not survive
header transport. -/
theorem c9_claim_counterexample :
    buildContentDisposition (generateFileName c9FileName ("EN".toList)) ≠
      specContentDisposition (generateFileName c9FileName ("EN".toList)) ∧
    buildContentDisposition (generateFileName c9FileName ("EN".toList)) =
      "attachment; filename=\"EN.txt\"; filename*=UTF-8".toList ++ [apos, apos] ++
        "EN.txt".toList := by
  constructor
  · decide
  · decide

/-- C9 (amended): the download filename is derived by inserting `_<lang>`
before the file extension, and the `Content-Disposition` header quotes the
sanitized filename — drawn from a restricted ASCII-safe character set and
never empty — while its RFC 5987 `filename*` parameter carries the
percent-encoding of that same *sanitized* name (not of the original
Unicode name, which does not survive). -/
theorem c9_amended_content_disposition (fileName langCode : Str) :
    (∃ base ext, generateFileName fileName langCode =
        base ++ ['_'] ++ langCode ++ ext ∧ ext.head? = some '.') ∧
    buildContentDisposition (generateFileName fileName langCode) =
      "attachment; filename=\"".toList ++
        sanitizeFileName (generateFileName fileName langCode) ++
        "\"; filename*=UTF-8".toList ++ [apos, apos] ++
        encodeURIComponent (sanitizeFileName (generateFileName fileName langCode)) ∧
    sanitizeFileName (generateFileName fileName langCode) ≠ [] ∧
    ∀ c ∈ sanitizeFileName (generateFileName fileName langCode),
      asciiSafeChar c = true := by
  refine ⟨?_, ?_, sanitizeFileName_ne_nil _, sanitizeFileName_safe _⟩
  · refine ⟨_, _, rfl, ?_⟩
    show (if jsIncludes fileName ['.'] then
        fileName.drop ((jsLastIndexOf fileName ['.']).getD 0)
      else ".txt".toList).head? = some '.'
    split
    next hinc =>
      obtain ⟨p, hp⟩ : ∃ p, jsLastIndexOf fileName ['.'] = some p := by
        cases hlio : jsLastIndexOf fileName ['.'] with
        | none => rw [jsIncludes, hlio] at hinc; simp at hinc
        | some p => exact ⟨p, rfl⟩
      obtain ⟨-, hbeg⟩ := lastIndexFrom_spec hp
      rw [hp]
      exact begWith_dot_head hbeg
    next => rfl
  · simp [buildContentDisposition, List.append_assoc]
